import Mathlib

/-!
Shallow embedding of `src/correct.py` from the repository
`2023_Arevalo_BatchCorrection` (batch-effect correction methods), together
with theorems settling the frozen claims about it.

Modelling conventions:
* Numeric matrix entries are exact rationals (`ℚ`); the numeric rounding of
  floating-point casts is abstracted away, but the dtype tag of a matrix is
  tracked explicitly because the code manipulates it (`astype(np.float32)`).
* File paths and on-disk I/O are abstracted: a function that reads a parquet
  file takes the file's parsed content as an argument, and a function that
  writes a file returns the written content.
* The ZCA whitening classes (`from zca import ZCA, ZCA_corr`) are repository
  code that is not part of the sources given here; following the spec, the
  derivation of the fitted linear map from (mode, regularization, training
  rows) is abstracted as a function parameter `derive`, and theorems
  quantify over it.
-/

namespace Correct

/-- Numeric dtype tag of a matrix, as tracked by numpy `astype` calls. -/
inductive Dtype
  | float32
  | float64
  | other
  deriving DecidableEq, Repr

/-- A values matrix: a dtype tag plus rows of exact rationals. -/
structure Mat where
  dtype : Dtype
  rows : List (List ℚ)
  deriving DecidableEq, Repr

/-- Column-oriented metadata: column name to the list of cell values. -/
abbrev Meta := List (String × List String)

/-- A tabular dataset as produced by `split_parquet`: metadata part,
values matrix, and the ordered feature-name list. -/
structure Dataset where
  meta : Meta
  values : Mat
  features : List String
  deriving DecidableEq, Repr

/-- `meta[column]`: pandas column selection; `none` models the `KeyError`
raised when the column is absent. -/
def metaLookup (meta : Meta) (column : String) : Option (List String) :=
  (meta.find? (·.1 == column)).map (·.2)

/-- `meta[column].isin(values_norm).values`: boolean membership mask. -/
def isinMask (col : List String) (values_norm : List String) : List Bool :=
  col.map (fun v => values_norm.contains v)

/-- `vals[train_ix]`: boolean-mask row selection on a row list. -/
def maskSelect (mask : List Bool) (rows : List (List ℚ)) : List (List ℚ) :=
  ((mask.zip rows).filter (·.1)).map (·.2)

/-- `spherer.transform(vals)`: apply the fitted linear row map to every row.
The entry values are produced by the abstracted fitted map; the dtype of the
result is irrelevant downstream because the caller immediately casts. -/
def transform (rowMap : List ℚ → List ℚ) (m : Mat) : Mat :=
  { dtype := m.dtype, rows := m.rows.map rowMap }

/-- `.astype(d)`: set the dtype tag (numeric rounding abstracted). -/
def astype (m : Mat) (d : Dtype) : Mat :=
  { dtype := d, rows := m.rows }

/-- Observable steps of the sphering orchestrator, in execution order:
loading the dataset, fitting the whitening operator (recording how many
training rows it is fitted on), writing the corrected dataset, saving the
fitted operator. -/
inductive Event
  | load
  | fit (nTrainRows : Nat)
  | writeSphered
  | saveSpherer
  deriving DecidableEq, Repr

/-- Errors raised by `sphering`: the explicit `ValueError` for a bad mode,
and the pandas `KeyError` for a missing metadata column. -/
inductive SphErr
  | invalidMode
  | keyError
  deriving DecidableEq, Repr

/-- Modelled from the spec: the fitted whitening operator persisted by
`np.savez_compressed(spherer_path, spherer=spherer)` is an opaque blob; we
record the data that defines it (mode, regularization, training rows),
since `zca.py` is not among the given sources. -/
structure SphererBlob where
  mode : String
  regularization : ℚ
  trainRows : List (List ℚ)
  deriving DecidableEq, Repr

/-- The two files written by a successful `sphering` run: the corrected
dataset (at `sphered_path`) and the fitted operator (at `spherer_path`). -/
structure SpheringOutput where
  sphered : Dataset
  spherer : SphererBlob
  deriving DecidableEq, Repr

/-- Modelled from the spec: `zca.py` (classes `ZCA` and `ZCA_corr`) is not
among the given sources. Per the spec, `fit` derives a fitted linear map
from the mode (covariance vs correlation statistics), the regularization
scalar and the training rows, and `transform` applies that map to rows; the
derivation itself is abstracted as this function type. -/
abbrev DeriveFn := String → ℚ → List (List ℚ) → (List ℚ → List ℚ)

/-- `sphering(dframe_path, mode, lambda_, column_norm, values_norm,
sphered_path, spherer_path)` from `src/correct.py`, with I/O abstracted:
the dataset behind `dframe_path` is passed in, and the pair of outputs is
returned on success. The first component is the ordered event trace.
The source checks the mode first (`if 'corr' / elif 'cov' / else raise`),
then loads, computes the membership mask, fits on the masked rows with no
emptiness check, transforms all rows, casts to float32, and writes. -/
def sphering (derive : DeriveFn) (dframe : Dataset) (mode : String)
    (lambda_ : ℚ) (column_norm : String) (values_norm : List String) :
    List Event × Except SphErr SpheringOutput :=
  if mode = "corr" ∨ mode = "cov" then
    match metaLookup dframe.meta column_norm with
    | none => ([Event.load], Except.error SphErr.keyError)
    | some col =>
      let train_ix := isinMask col values_norm
      let train := maskSelect train_ix dframe.values.rows
      let rowMap := derive mode lambda_ train
      let vals := astype (transform rowMap dframe.values) Dtype.float32
      ([Event.load, Event.fit train.length, Event.writeSphered,
        Event.saveSpherer],
       Except.ok { sphered := { meta := dframe.meta, values := vals,
                                features := dframe.features },
                   spherer := { mode := mode, regularization := lambda_,
                                trainRows := train } })
  else
    ([], Except.error SphErr.invalidMode)

/-- An in-memory annotated dataset (`ad.AnnData`): feature matrix `X`,
row-aligned observation metadata `obs`, and the named-embedding slots
`obsm` as an ordered association list. -/
structure AnnData where
  X : Mat
  obs : Meta
  obsm : List (String × Mat)
  deriving DecidableEq, Repr

/-- `adata.obsm[key] = v`: replace the entry at `key` if present, else
append it at the end. -/
def obsmSet : List (String × Mat) → String → Mat → List (String × Mat)
  | [], key, v => [(key, v)]
  | e :: rest, key, v =>
    if e.1 = key then (key, v) :: rest else e :: obsmSet rest key v

/-- `adata.obsm[key]` read access. -/
def obsmGet (obsm : List (String × Mat)) (key : String) : Option Mat :=
  (obsm.find? (·.1 == key)).map (·.2)

/-- `identity(adata, batch_key, corrected_embed)` from `src/correct.py`:
copies the raw feature matrix into the embedding slot unchanged. -/
def identity (adata : AnnData) (batch_key corrected_embed : String) :
    AnnData :=
  { adata with obsm := obsmSet adata.obsm corrected_embed adata.X }

/-- Minimum of a list of entries; `0` on the empty list (numpy's `min`
raises there, a case no theorem below relies on). -/
def entriesMin : List ℚ → ℚ
  | [] => 0
  | x :: xs => xs.foldl min x

/-- `train_adata.X -= min_value`, on every entry of the matrix. -/
def matShift (m : Mat) (c : ℚ) : Mat :=
  { dtype := m.dtype, rows := m.rows.map (fun r => r.map (fun x => x - c)) }

/-- The configuration handed to the external scVI library by `scvi`:
the shifted training matrix from `SCVI.setup_anndata`'s copied AnnData,
the batch/labels keys, and the architecture constants passed to `SCVI`. -/
structure ScviSetup where
  trainX : Mat
  obs : Meta
  batchKey : String
  labelsKey : String
  nLayers : Nat
  nLatent : Nat

/-- `scvi(adata, batch_key, corrected_embed, label_key)` from
`src/correct.py`. The external variational model (construction, training
and `get_latent_representation`) is abstracted as the parameter
`getLatent`, applied to the setup the source builds: a copy of the data
shifted by its global minimum, conditioned on batch and label keys, with
2 hidden layers and 30 latent dimensions. Only the embedding slot of the
original dataset is mutated. -/
def scvi (getLatent : ScviSetup → Mat) (adata : AnnData)
    (batch_key corrected_embed label_key : String) : AnnData :=
  let n_latent := 30
  let min_value := entriesMin adata.X.rows.flatten
  let trainX := matShift adata.X min_value
  let setup : ScviSetup :=
    { trainX := trainX, obs := adata.obs, batchKey := batch_key,
      labelsKey := label_key, nLayers := 2, nLatent := n_latent }
  { adata with obsm := obsmSet adata.obsm corrected_embed (getLatent setup) }

/-- Names of the source functions a registry entry can dispatch to. -/
inductive FnName
  | harmony
  | mnn
  | scanorama
  | combat
  | desc
  | identity
  | scvi
  deriving DecidableEq, Repr

/-- A registry value: `partial(fn, batch_key=...)`, plus `label_key` for
the one entry that binds it. -/
structure BoundUnit where
  fn : FnName
  batch_key : String
  label_key : Option String
  deriving DecidableEq, Repr

/-- `get_method_map(batch_key, label_key)` from `src/correct.py`: the
ordered name-to-callable mapping, with bound keys. -/
def get_method_map (batch_key label_key : String) :
    List (String × BoundUnit) :=
  [("harmony", { fn := FnName.harmony, batch_key := batch_key,
                 label_key := none }),
   ("mnn", { fn := FnName.mnn, batch_key := batch_key, label_key := none }),
   ("scanorama", { fn := FnName.scanorama, batch_key := batch_key,
                   label_key := none }),
   ("combat", { fn := FnName.combat, batch_key := batch_key,
                label_key := none }),
   ("desc", { fn := FnName.desc, batch_key := batch_key,
              label_key := none }),
   ("sphering", { fn := FnName.identity, batch_key := batch_key,
                  label_key := none }),
   ("scvi", { fn := FnName.scvi, batch_key := batch_key,
              label_key := some label_key })]

/-- `correction_map[name]`: plain dictionary membership lookup; `none`
models the `KeyError` for an unknown name. -/
def methodLookup (m : List (String × BoundUnit)) (name : String) :
    Option BoundUnit :=
  (m.find? (·.1 == name)).map (·.2)

/-- Errors raised by `select_best`: the pandas `KeyError` for a missing
`mean_average_precision` column, and the `IndexError` from `index[-1]`
on an empty series. -/
inductive SelErr
  | keyError
  | indexError
  deriving DecidableEq, Repr

/-- `pd.read_parquet(map_file)['mean_average_precision'].mean()` on a
present, parsed column: pandas' mean of an empty column is NaN,
modelled as `none`. -/
def listMean (col : List ℚ) : Option ℚ :=
  if col = [] then none else some (col.sum / col.length)

/-- The column read from a map file, once `none` (missing column) has been
ruled out. -/
def scoreOf (m : Option (List ℚ)) : Option ℚ :=
  match m with
  | none => none
  | some col => listMean col

/-- `scores[parquet_file] = mean_map` on a pandas Series: overwrite the
value at an existing key in place, else append at the end. -/
def seriesSet : List (String × Option ℚ) → String → Option ℚ →
    List (String × Option ℚ)
  | [], key, v => [(key, v)]
  | e :: rest, key, v =>
    if e.1 = key then (key, v) :: rest else e :: seriesSet rest key v

/-- The accumulation loop of `select_best`: for each (map file, dataset
path) pair read the score column (raising `KeyError` when it is absent)
and record its mean in the series. -/
def buildScores : List (Option (List ℚ) × String) →
    List (String × Option ℚ) → Except SelErr (List (String × Option ℚ))
  | [], acc => Except.ok acc
  | (none, _) :: _, _ => Except.error SelErr.keyError
  | (some col, p) :: rest, acc =>
    buildScores rest (seriesSet acc p (listMean col))

/-- Value comparison used by `sort_values()` on the series: ascending on
scores, with NaN (`none`) sorted last (`na_position='last'`). -/
def naLeB : Option ℚ → Option ℚ → Bool
  | _, none => true
  | none, some _ => false
  | some x, some y => decide (x ≤ y)

/-- The comparison on series entries induced by `naLeB` on their values. -/
def entryLe (a b : String × Option ℚ) : Prop :=
  naLeB a.2 b.2 = true

instance : DecidableRel entryLe := fun a b =>
  instDecidableEqBool (naLeB a.2 b.2) true

instance : IsRefl (String × Option ℚ) entryLe :=
  ⟨fun a => by
    rcases a with ⟨k, _ | x⟩
    · rfl
    · simp [entryLe, naLeB]⟩

instance : IsTotal (String × Option ℚ) entryLe :=
  ⟨fun a b => by
    rcases a with ⟨j, _ | x⟩ <;> rcases b with ⟨k, _ | y⟩ <;>
      simp [entryLe, naLeB]
    exact le_total x y⟩

instance : IsTrans (String × Option ℚ) entryLe :=
  ⟨fun a b c hab hbc => by
    rcases a with ⟨i, _ | x⟩ <;> rcases b with ⟨j, _ | y⟩ <;>
      rcases c with ⟨k, _ | z⟩ <;>
      simp_all [entryLe, naLeB]
    exact le_trans hab hbc⟩

/-- `scores.sort_values()`: stable ascending sort of the series by value,
NaN last. -/
def sortValues (s : List (String × Option ℚ)) : List (String × Option ℚ) :=
  List.insertionSort entryLe s

/-- `select_best(map_files, parquet_files, best_path)` from
`src/correct.py`, with I/O abstracted: each map file is passed in as its
parsed `mean_average_precision` column (or `none` when the column is
absent), and the path of the dataset file copied to `best_path` is
returned on success. -/
def select_best (map_files : List (Option (List ℚ)))
    (parquet_files : List String) : Except SelErr String :=
  match buildScores (map_files.zip parquet_files) [] with
  | Except.error e => Except.error e
  | Except.ok scores =>
    match (sortValues scores).getLast? with
    | none => Except.error SelErr.indexError
    | some best => Except.ok best.1

/-- Reference selection following the spec's words: the entry whose score
is maximal, with the later entry winning whenever scores tie. -/
def selectBestRef : List (String × Option ℚ) →
    Option (String × Option ℚ)
  | [] => none
  | e :: rest =>
    match selectBestRef rest with
    | none => some e
    | some b => if entryLe e b then some b else some e

/-- The scored series `select_best` accumulates when every map file has
the score column and no dataset path repeats. -/
def scoredSeries (map_files : List (Option (List ℚ)))
    (parquet_files : List String) : List (String × Option ℚ) :=
  (map_files.zip parquet_files).map (fun x => (x.2, scoreOf x.1))

/-! Helper lemmas shared by the claim theorems. -/

lemma obsmGet_obsmSet (o : List (String × Mat)) (k : String) (v : Mat) :
    obsmGet (obsmSet o k v) k = some v := by
  induction o with
  | nil => simp [obsmSet, obsmGet, List.find?]
  | cons e rest ih =>
    by_cases he : e.1 = k
    · simp [obsmSet, he, obsmGet, List.find?]
    · simp only [obsmSet, if_neg he, obsmGet, List.find?_cons,
        beq_eq_false_iff_ne.mpr he]
      exact ih

lemma foldl_min_le_init (xs : List ℚ) : ∀ a : ℚ, xs.foldl min a ≤ a := by
  induction xs with
  | nil => intro a; exact le_refl a
  | cons x t ih =>
    intro a
    calc (x :: t).foldl min a = t.foldl min (min a x) := rfl
    _ ≤ min a x := ih (min a x)
    _ ≤ a := min_le_left a x

lemma foldl_min_le_mem (xs : List ℚ) :
    ∀ a x, x ∈ xs → xs.foldl min a ≤ x := by
  induction xs with
  | nil => intro a x hx; cases hx
  | cons y t ih =>
    intro a x hx
    rcases List.mem_cons.mp hx with rfl | hx
    · calc (x :: t).foldl min a = t.foldl min (min a x) := rfl
      _ ≤ min a x := foldl_min_le_init t (min a x)
      _ ≤ x := min_le_right a x
    · exact ih (min a y) x hx

lemma entriesMin_le (l : List ℚ) (x : ℚ) (hx : x ∈ l) :
    entriesMin l ≤ x := by
  cases l with
  | nil => cases hx
  | cons y t =>
    rcases List.mem_cons.mp hx with rfl | hx
    · exact foldl_min_le_init t x
    · exact foldl_min_le_mem t y x hx

/-- Inverting a successful `sphering` run: the mode was accepted, the
metadata column was found, and the outputs are exactly what the source
builds from the input and the fitted map. -/
lemma sphering_ok_inversion (derive : DeriveFn) (df : Dataset)
    (mode : String) (lambda_ : ℚ) (cn : String) (vn : List String)
    (evs : List Event) (out : SpheringOutput)
    (h : sphering derive df mode lambda_ cn vn = (evs, Except.ok out)) :
    ∃ col, metaLookup df.meta cn = some col ∧
      out.sphered.meta = df.meta ∧
      out.sphered.features = df.features ∧
      out.sphered.values =
        astype (transform
          (derive mode lambda_ (maskSelect (isinMask col vn)
            df.values.rows)) df.values) Dtype.float32 := by
  unfold sphering at h
  by_cases hm : (mode = "corr" ∨ mode = "cov")
  · rw [if_pos hm] at h
    cases hcol : metaLookup df.meta cn with
    | none => rw [hcol] at h; simp at h
    | some col =>
      rw [hcol] at h
      simp only [Prod.mk.injEq, Except.ok.injEq] at h
      refine ⟨col, rfl, ?_⟩
      rw [← h.2]
      exact ⟨rfl, rfl, rfl⟩
  · rw [if_neg hm] at h
    simp at h

lemma length_pairs_map_self (f : List ℚ → List ℚ)
    (hf : ∀ r, (f r).length = r.length) (l : List (List ℚ)) :
    ∀ p ∈ (l.map f).zip l, p.1.length = p.2.length := by
  induction l with
  | nil => intro p hp; cases hp
  | cons a t ih =>
    intro p hp
    rw [List.map_cons, List.zip_cons_cons, List.mem_cons] at hp
    rcases hp with rfl | hp
    · exact hf a
    · exact ih p hp

lemma zip_take_min {α β : Type} (l₁ : List α) (l₂ : List β) :
    l₁.zip l₂ = (l₁.take (min l₁.length l₂.length)).zip
      (l₂.take (min l₁.length l₂.length)) := by
  induction l₁ generalizing l₂ with
  | nil => simp
  | cons a t ih =>
    cases l₂ with
    | nil => simp
    | cons b s =>
      simp only [List.length_cons, Nat.succ_min_succ, List.take_succ_cons,
        List.zip_cons_cons]
      rw [← ih s]

/-! The claim theorems. -/

/-- Claim C3: for every invocation of the sphering orchestrator with a
mode string that is neither "cov" nor "corr", the operation fails with the
invalid-mode error and performs nothing else: the event trace is empty, so
no dataset is loaded, no operator is fitted, and no output is written. -/
theorem sphering_invalid_mode_no_effects (derive : DeriveFn) (df : Dataset)
    (mode : String) (lambda_ : ℚ) (cn : String) (vn : List String)
    (h1 : mode ≠ "corr") (h2 : mode ≠ "cov") :
    sphering derive df mode lambda_ cn vn =
      ([], Except.error SphErr.invalidMode) := by
  have hm : ¬(mode = "corr" ∨ mode = "cov") := by
    rintro (h | h)
    · exact h1 h
    · exact h2 h
  unfold sphering
  rw [if_neg hm]

/-- Witness for C3 at the concrete mode "invalid". -/
theorem sphering_invalid_mode_no_effects_witness :
    (("invalid" : String) ≠ "corr" ∧ ("invalid" : String) ≠ "cov") ∧
    sphering (fun _ _ _ => id)
      { meta := [("c", ["v"])],
        values := { dtype := Dtype.float64, rows := [[1]] },
        features := ["f"] } "invalid" 1 "c" ["v"] =
      ([], Except.error SphErr.invalidMode) :=
  ⟨by decide,
   sphering_invalid_mode_no_effects (fun _ _ _ => id)
     { meta := [("c", ["v"])],
       values := { dtype := Dtype.float64, rows := [[1]] },
       features := ["f"] } "invalid" 1 "c" ["v"]
     (by decide) (by decide)⟩

/-- Claim C1 (code-bug evidence): on a dataset where the training mask
selects zero rows, `sphering` raises no configuration error: it loads the
dataset, fits the whitening operator on a zero-row training set, and
writes both outputs. The trace records `fit 0` and the run succeeds. -/
theorem sphering_fits_on_zero_training_rows :
    sphering (fun _ _ _ => id)
      { meta := [("Metadata_source", ["s1", "s2"])],
        values := { dtype := Dtype.float64, rows := [[1, 2], [3, 4]] },
        features := ["f1", "f2"] }
      "cov" (1 / 1000) "Metadata_source" ["s9"] =
    ([Event.load, Event.fit 0, Event.writeSphered, Event.saveSpherer],
     Except.ok
       { sphered :=
           { meta := [("Metadata_source", ["s1", "s2"])],
             values := { dtype := Dtype.float32, rows := [[1, 2], [3, 4]] },
             features := ["f1", "f2"] },
         spherer :=
           { mode := "cov", regularization := 1 / 1000,
             trainRows := [] } }) :=
  rfl

/-- Claim C5: a successful sphering run writes a dataset with the same
metadata and the same ordered feature-name list as the input, a values
matrix of the same row and column counts, and values that are the fitted
operator applied to every row of the input values matrix. The hypothesis
`hd` is the spec's statement that the fitted map is a linear map on
feature vectors, hence width-preserving. -/
theorem sphering_preserves_frame (derive : DeriveFn) (df : Dataset)
    (mode : String) (lambda_ : ℚ) (cn : String) (vn : List String)
    (evs : List Event) (out : SpheringOutput)
    (hd : ∀ train r, (derive mode lambda_ train r).length = r.length)
    (h : sphering derive df mode lambda_ cn vn = (evs, Except.ok out)) :
    out.sphered.meta = df.meta ∧
    out.sphered.features = df.features ∧
    (∃ col, metaLookup df.meta cn = some col ∧
      out.sphered.values.rows = df.values.rows.map
        (derive mode lambda_
          (maskSelect (isinMask col vn) df.values.rows))) ∧
    out.sphered.values.rows.length = df.values.rows.length ∧
    ∀ p ∈ out.sphered.values.rows.zip df.values.rows,
      p.1.length = p.2.length := by
  obtain ⟨col, hcol, hmeta, hfeat, hvals⟩ :=
    sphering_ok_inversion derive df mode lambda_ cn vn evs out h
  have hrows : out.sphered.values.rows = df.values.rows.map
      (derive mode lambda_ (maskSelect (isinMask col vn)
        df.values.rows)) := by
    rw [hvals]; rfl
  refine ⟨hmeta, hfeat, ⟨col, hcol, hrows⟩, ?_, ?_⟩
  · rw [hrows, List.length_map]
  · rw [hrows]
    exact length_pairs_map_self _ (fun r => hd _ r) df.values.rows

/-- The concrete input dataset used by the C5 witness. -/
def wDf : Dataset :=
  { meta := [("well", ["a", "b"])],
    values := { dtype := Dtype.float64, rows := [[1, 2], [3, 4]] },
    features := ["f1", "f2"] }

/-- The output of `sphering` on the C5 witness input. -/
def wOut : SpheringOutput :=
  { sphered :=
      { meta := [("well", ["a", "b"])],
        values := { dtype := Dtype.float32, rows := [[1, 2], [3, 4]] },
        features := ["f1", "f2"] },
    spherer := { mode := "corr", regularization := 2,
                 trainRows := [[1, 2]] } }

/-- Witness for C5 at a concrete dataset and the identity derivation. -/
theorem sphering_preserves_frame_witness :
    (∀ (train : List (List ℚ)) (r : List ℚ),
      ((fun _ _ _ => id : DeriveFn) "corr" 2 train r).length =
        r.length) ∧
    (sphering (fun _ _ _ => id) wDf "corr" 2 "well" ["a"] =
      ([Event.load, Event.fit 1, Event.writeSphered, Event.saveSpherer],
       Except.ok wOut)) ∧
    wOut.sphered.meta = wDf.meta :=
  ⟨fun _ _ => rfl, rfl,
   (sphering_preserves_frame (fun _ _ _ => id) wDf "corr" 2 "well" ["a"]
     [Event.load, Event.fit 1, Event.writeSphered, Event.saveSpherer]
     wOut (fun _ _ => rfl) rfl).1⟩

/-- Claim C6: whatever the precision of the input values matrix, the
transform step of a successful sphering run produces 32-bit floating
point values (the written matrix's dtype is float32). -/
theorem sphering_output_dtype_float32 (derive : DeriveFn) (df : Dataset)
    (mode : String) (lambda_ : ℚ) (cn : String) (vn : List String)
    (evs : List Event) (out : SpheringOutput)
    (h : sphering derive df mode lambda_ cn vn = (evs, Except.ok out)) :
    out.sphered.values.dtype = Dtype.float32 := by
  obtain ⟨col, _, _, _, hvals⟩ :=
    sphering_ok_inversion derive df mode lambda_ cn vn evs out h
  rw [hvals]
  rfl

/-- The concrete float64 input dataset used by the C6 witness. -/
def wDf6 : Dataset :=
  { meta := [("well", ["a"])],
    values := { dtype := Dtype.float64, rows := [[7]] },
    features := ["f"] }

/-- The output of `sphering` on the C6 witness input. -/
def wOut6 : SpheringOutput :=
  { sphered :=
      { meta := [("well", ["a"])],
        values := { dtype := Dtype.float32, rows := [[7]] },
        features := ["f"] },
    spherer := { mode := "cov", regularization := 1,
                 trainRows := [[7]] } }

/-- Witness for C6 at a concrete float64 input. -/
theorem sphering_output_dtype_float32_witness :
    (sphering (fun _ _ _ => id) wDf6 "cov" 1 "well" ["a"] =
      ([Event.load, Event.fit 1, Event.writeSphered, Event.saveSpherer],
       Except.ok wOut6)) ∧
    wOut6.sphered.values.dtype = Dtype.float32 :=
  ⟨rfl,
   sphering_output_dtype_float32 (fun _ _ _ => id) wDf6 "cov" 1 "well"
     ["a"] [Event.load, Event.fit 1, Event.writeSphered, Event.saveSpherer]
     wOut6 rfl⟩

/-- Claim C4: `get_method_map` yields exactly the seven documented method
names (in source order), and looking up any name outside this set gives
nothing — the lookup is plain dictionary membership. -/
theorem get_method_map_names (batch_key label_key : String) :
    (get_method_map batch_key label_key).map Prod.fst =
      ["harmony", "mnn", "scanorama", "combat", "desc", "sphering",
       "scvi"] ∧
    ∀ name, name ∉ (["harmony", "mnn", "scanorama", "combat", "desc",
        "sphering", "scvi"] : List String) →
      methodLookup (get_method_map batch_key label_key) name = none := by
  refine ⟨rfl, ?_⟩
  intro name h
  rw [methodLookup, Option.map_eq_none', List.find?_eq_none]
  intro x hx
  simp only [get_method_map, List.mem_cons, List.not_mem_nil, or_false]
    at hx
  simp only [List.mem_cons, List.not_mem_nil, or_false, not_or] at h
  obtain ⟨h1, h2, h3, h4, h5, h6, h7⟩ := h
  rcases hx with rfl | rfl | rfl | rfl | rfl | rfl | rfl <;>
    simp only [beq_iff_eq] <;> intro he <;> simp_all

/-- Witness for C4: the undocumented name "bogus" is outside the set and
its lookup yields nothing. -/
theorem get_method_map_names_witness :
    (("bogus" : String) ∉ (["harmony", "mnn", "scanorama", "combat",
        "desc", "sphering", "scvi"] : List String)) ∧
    methodLookup (get_method_map "batch" "label") "bogus" = none :=
  ⟨by decide,
   (get_method_map_names "batch" "label").2 "bogus" (by decide)⟩

/-- Claim C7: the registry's "sphering" entry is the identity
pass-through with the batch key bound, and applying it copies the raw
feature matrix unchanged into the `corrected_embed` slot, transforming
nothing: `X` and `obs` are untouched and the slot holds exactly `X`. -/
theorem registry_sphering_is_identity (bk lk : String) (adata : AnnData)
    (ce : String) :
    methodLookup (get_method_map bk lk) "sphering" =
      some { fn := FnName.identity, batch_key := bk, label_key := none } ∧
    (identity adata bk ce).X = adata.X ∧
    (identity adata bk ce).obs = adata.obs ∧
    obsmGet (identity adata bk ce).obsm ce = some adata.X :=
  ⟨rfl, rfl, rfl, obsmGet_obsmSet adata.obsm ce adata.X⟩

/-- Claim C9: the scvi unit shifts the data to be non-negative by
subtracting the global minimum on a copy only, hands the variational
model a setup with 30 latent dimensions and 2 hidden layers conditioned
on the batch and label keys, stores the latent representation under
`corrected_embed`, and leaves the original feature matrix (and obs)
unchanged. Quantified over the opaque external model `getLatent`. -/
theorem scvi_shifts_copy_and_stores_latent (getLatent : ScviSetup → Mat)
    (adata : AnnData) (bk ce lk : String) :
    (scvi getLatent adata bk ce lk).X = adata.X ∧
    (scvi getLatent adata bk ce lk).obs = adata.obs ∧
    obsmGet (scvi getLatent adata bk ce lk).obsm ce =
      some (getLatent
        { trainX := matShift adata.X (entriesMin adata.X.rows.flatten),
          obs := adata.obs, batchKey := bk, labelsKey := lk,
          nLayers := 2, nLatent := 30 }) ∧
    ∀ row ∈ (matShift adata.X
        (entriesMin adata.X.rows.flatten)).rows,
      ∀ x ∈ row, 0 ≤ x := by
  refine ⟨rfl, rfl, obsmGet_obsmSet adata.obsm ce _, ?_⟩
  intro row hrow x hx
  simp only [matShift, List.mem_map] at hrow
  obtain ⟨r0, hr0, rfl⟩ := hrow
  simp only [List.mem_map] at hx
  obtain ⟨x0, hx0, rfl⟩ := hx
  have hmin : entriesMin adata.X.rows.flatten ≤ x0 :=
    entriesMin_le _ _ (List.mem_flatten.mpr ⟨r0, hr0, hx0⟩)
  linarith

/-- The concrete annotated dataset used by the C9 witness; its global
minimum entry is 3. -/
abbrev wAd9 : AnnData :=
  { X := { dtype := Dtype.float64, rows := [[3, 5]] },
    obs := [], obsm := [] }

/-- Witness for C9: on `wAd9` the shifted row is `[0, 2]` and its first
entry is non-negative. -/
theorem scvi_shifts_copy_and_stores_latent_witness :
    (([(0 : ℚ), 2] ∈
        (matShift wAd9.X (entriesMin wAd9.X.rows.flatten)).rows) ∧
      (0 : ℚ) ∈ [(0 : ℚ), 2]) ∧
    (0 : ℚ) ≤ 0 :=
  ⟨⟨by norm_num [matShift, entriesMin], by decide⟩,
   (scvi_shifts_copy_and_stores_latent
     (fun _ => { dtype := Dtype.float32, rows := [[0]] })
     wAd9 "b" "e" "l").2.2.2
     [(0 : ℚ), 2] (by norm_num [matShift, entriesMin]) 0 (by decide)⟩

/-- Claim C10: with lists of unequal length, `select_best` silently
considers only the first `min(len(map_files), len(parquet_files))`
pairs — its result is identical to running it on the truncated lists, so
trailing entries of the longer list are ignored without any error. -/
theorem select_best_truncates_to_min (map_files : List (Option (List ℚ)))
    (parquet_files : List String) :
    select_best map_files parquet_files =
      select_best
        (map_files.take (min map_files.length parquet_files.length))
        (parquet_files.take (min map_files.length parquet_files.length)) := by
  unfold select_best
  rw [← zip_take_min]

/-! Lemmas on the series sort underlying `select_best`. -/

lemma getLast?_cons_of_ne_nil {α : Type} (b : α) (l : List α)
    (h : l ≠ []) : (b :: l).getLast? = l.getLast? := by
  cases l with
  | nil => exact absurd rfl h
  | cons c u => exact List.getLast?_cons_cons

lemma sorted_head_le_getLast (b : String × Option ℚ)
    (t : List (String × Option ℚ))
    (hs : List.Sorted entryLe (b :: t)) :
    ∀ z, (b :: t).getLast? = some z → entryLe b z := by
  intro z hz
  have hz' : z ∈ b :: t := List.mem_of_mem_getLast? (by rw [hz]; rfl)
  rcases List.mem_cons.mp hz' with rfl | hmem
  · exact IsRefl.refl z
  · exact List.rel_of_sorted_cons hs z hmem

lemma orderedInsert_ne_nil (a : String × Option ℚ)
    (l : List (String × Option ℚ)) :
    List.orderedInsert entryLe a l ≠ [] := by
  cases l with
  | nil => simp [List.orderedInsert]
  | cons b t =>
    rw [List.orderedInsert]
    split <;> simp

lemma getLast?_orderedInsert (a : String × Option ℚ) :
    ∀ l : List (String × Option ℚ), List.Sorted entryLe l →
      (List.orderedInsert entryLe a l).getLast? =
        some (match l.getLast? with
              | none => a
              | some z => if entryLe a z then z else a) := by
  intro l
  induction l with
  | nil => intro _; rfl
  | cons b t ih =>
    intro hs
    rw [List.orderedInsert]
    by_cases hab : entryLe a b
    · rw [if_pos hab, List.getLast?_cons_cons]
      obtain ⟨z, hz⟩ : ∃ z, (b :: t).getLast? = some z := by
        cases t with
        | nil => exact ⟨b, rfl⟩
        | cons c u =>
          rw [List.getLast?_cons_cons]
          exact Option.isSome_iff_exists.mp
            (List.getLast?_isSome.mpr (by simp))
      rw [hz]
      have hbz : entryLe b z := sorted_head_le_getLast b t hs z hz
      show some z = some (if entryLe a z then z else a)
      rw [if_pos (IsTrans.trans a b z hab hbz)]
    · rw [if_neg hab,
        getLast?_cons_of_ne_nil b _ (orderedInsert_ne_nil a t),
        ih (List.Sorted.of_cons hs)]
      cases t with
      | nil => simp [if_neg hab]
      | cons c u => rw [List.getLast?_cons_cons]

/-- Last element of the stable ascending sort equals the reference
selection: the maximal score, later entries winning ties. -/
lemma getLast?_sortValues (l : List (String × Option ℚ)) :
    (sortValues l).getLast? = selectBestRef l := by
  induction l with
  | nil => rfl
  | cons e t ih =>
    have hsort : List.Sorted entryLe (sortValues t) :=
      List.sorted_insertionSort entryLe t
    have hstep : sortValues (e :: t) =
        List.orderedInsert entryLe e (sortValues t) := rfl
    rw [hstep, getLast?_orderedInsert e (sortValues t) hsort]
    simp only [selectBestRef]
    rw [← ih]
    cases h : (sortValues t).getLast? with
    | none => rfl
    | some b =>
      show some (if entryLe e b then b else e) =
        if entryLe e b then some b else some e
      exact apply_ite some (entryLe e b) b e

lemma selectBestRef_cons_isSome (e : String × Option ℚ)
    (t : List (String × Option ℚ)) :
    ∃ b, selectBestRef (e :: t) = some b := by
  simp only [selectBestRef]
  cases h : selectBestRef t with
  | none => exact ⟨e, rfl⟩
  | some b =>
    by_cases hb : entryLe e b
    · refine ⟨b, ?_⟩
      show (if entryLe e b then some b else some e) = some b
      rw [if_pos hb]
    · refine ⟨e, ?_⟩
      show (if entryLe e b then some b else some e) = some e
      rw [if_neg hb]

lemma seriesSet_of_not_mem (acc : List (String × Option ℚ)) (k : String)
    (v : Option ℚ) (h : ∀ e ∈ acc, e.1 ≠ k) :
    seriesSet acc k v = acc ++ [(k, v)] := by
  induction acc with
  | nil => rfl
  | cons e rest ih =>
    rw [seriesSet, if_neg (h e (List.mem_cons_self e rest)),
      ih (fun x hx => h x (List.mem_cons_of_mem e hx)), List.cons_append]

/-- The accumulation loop on distinct dataset paths with all score
columns present: it appends one scored entry per pair, in order. -/
lemma buildScores_ok (pairs : List (Option (List ℚ) × String)) :
    ∀ acc, (∀ x ∈ pairs, x.1 ≠ none) →
    (pairs.map (fun x => x.2)).Nodup →
    (∀ k ∈ pairs.map (fun x => x.2), ∀ e ∈ acc, e.1 ≠ k) →
    buildScores pairs acc =
      Except.ok (acc ++ pairs.map (fun x => (x.2, scoreOf x.1))) := by
  induction pairs with
  | nil => intro acc _ _ _; simp [buildScores]
  | cons x rest ih =>
    intro acc hsome hnd hdisj
    obtain ⟨m, p⟩ := x
    cases m with
    | none => exact absurd rfl (hsome (none, p) (List.mem_cons_self _ _))
    | some col =>
      have hp : p ∈ ((some col, p) :: rest).map (fun x => x.2) := by simp
      rw [buildScores,
        seriesSet_of_not_mem acc p (listMean col) (hdisj p hp)]
      have hnd' : (rest.map (fun x => x.2)).Nodup := by
        rw [List.map_cons, List.nodup_cons] at hnd
        exact hnd.2
      have hpnot : p ∉ rest.map (fun x => x.2) := by
        rw [List.map_cons, List.nodup_cons] at hnd
        exact hnd.1
      rw [ih (acc ++ [(p, listMean col)])
        (fun y hy => hsome y (List.mem_cons_of_mem _ hy)) hnd'
        (fun k hk e he => by
          rcases List.mem_append.mp he with he' | he'
          · exact hdisj k (List.mem_cons_of_mem _ (by simpa using hk))
              e he'
          · rw [List.mem_singleton.mp he']
            intro hpk
            have hpk2 : p = k := hpk
            exact hpnot (by rw [hpk2]; simpa using hk))]
      rw [List.append_assoc]
      rfl

/-- Claim C2: on parallel lists of pairs (all score columns present,
distinct dataset paths), `select_best` copies exactly the dataset the
spec's words describe: the one whose evaluation map has the maximal mean
score, with the later entry in iteration order deterministically winning
ties (`selectBestRef`). -/
theorem select_best_max_later_ties (mf : List (Option (List ℚ)))
    (pf : List String) (hlen : mf.length = pf.length) (hne : pf ≠ [])
    (hnd : pf.Nodup) (hsome : ∀ m ∈ mf, m ≠ none) :
    ∃ e, selectBestRef (scoredSeries mf pf) = some e ∧
      select_best mf pf = Except.ok e.1 := by
  have hsnd : (mf.zip pf).map (fun x => x.2) = pf := by
    have h := List.map_snd_zip mf pf (le_of_eq hlen.symm)
    simpa using h
  have hb := buildScores_ok (mf.zip pf) []
    (fun x hx => by
      obtain ⟨a, b⟩ := x
      exact hsome a (List.of_mem_zip hx).1)
    (by rw [hsnd]; exact hnd)
    (fun k _ e he => absurd he (List.not_mem_nil e))
  have hscored : buildScores (mf.zip pf) [] =
      Except.ok (scoredSeries mf pf) := by
    rw [hb]; rfl
  have hlen0 : (scoredSeries mf pf).length = pf.length := by
    rw [scoredSeries, List.length_map, List.length_zip, hlen,
      min_self]
  cases hsc : scoredSeries mf pf with
  | nil =>
    rw [hsc] at hlen0
    exact absurd (List.length_eq_zero.mp hlen0.symm) hne
  | cons e t =>
    obtain ⟨b, hbref⟩ := selectBestRef_cons_isSome e t
    refine ⟨b, hbref, ?_⟩
    rw [select_best, hscored, hsc]
    show (match (sortValues (e :: t)).getLast? with
          | none => Except.error SelErr.indexError
          | some best => Except.ok best.1) = Except.ok b.1
    rw [getLast?_sortValues, hbref]

/-- Witness for C2: a tied pair of map files with score 7/10 each. -/
theorem select_best_max_later_ties_witness :
    (([some [(7 : ℚ) / 10], some [7 / 10]] :
        List (Option (List ℚ))).length = (["a", "b"] : List String).length
      ∧ (["a", "b"] : List String) ≠ []
      ∧ (["a", "b"] : List String).Nodup
      ∧ ∀ m ∈ ([some [(7 : ℚ) / 10], some [7 / 10]] :
          List (Option (List ℚ))), m ≠ none) ∧
    (∃ e, selectBestRef (scoredSeries [some [(7 : ℚ) / 10], some [7 / 10]]
        ["a", "b"]) = some e ∧
      select_best [some [(7 : ℚ) / 10], some [7 / 10]] ["a", "b"] =
        Except.ok e.1) :=
  ⟨⟨rfl, by decide, by decide, by decide⟩,
   select_best_max_later_ties [some [(7 : ℚ) / 10], some [7 / 10]]
     ["a", "b"] rfl (by decide) (by decide) (by decide)⟩

/-- Helper for C8: any pair whose map file lacks the score column makes
the accumulation loop raise the key error. -/
lemma buildScores_keyError :
    ∀ (pairs : List (Option (List ℚ) × String)) acc,
      (∃ x ∈ pairs, x.1 = none) →
      buildScores pairs acc = Except.error SelErr.keyError := by
  intro pairs
  induction pairs with
  | nil =>
    intro acc h
    obtain ⟨x, hx, _⟩ := h
    cases hx
  | cons y rest ih =>
    intro acc h
    obtain ⟨x, hx, hnone⟩ := h
    obtain ⟨m, p⟩ := y
    cases m with
    | none => rfl
    | some col =>
      rcases List.mem_cons.mp hx with rfl | hx'
      · cases hnone
      · rw [buildScores]
        exact ih (seriesSet acc p (listMean col)) ⟨x, hx', hnone⟩

/-- Claim C8: with parallel lists, `select_best` fails (and copies
nothing) whenever some evaluation-map file lacks the
`mean_average_precision` column (the key error), and whenever the input
lists are empty (the index error from taking the last of an empty
series). -/
theorem select_best_failure_cases (mf : List (Option (List ℚ)))
    (pf : List String) (hlen : mf.length = pf.length) :
    (none ∈ mf → select_best mf pf = Except.error SelErr.keyError) ∧
    ((mf = [] ∧ pf = []) →
      select_best mf pf = Except.error SelErr.indexError) := by
  constructor
  · intro hmem
    have hpair : ∃ x ∈ mf.zip pf, x.1 = none := by
      obtain ⟨i, hi, hget⟩ := List.getElem_of_mem hmem
      have hz : i < (mf.zip pf).length := by
        rw [List.length_zip, hlen, min_self]
        rw [hlen] at hi
        exact hi
      refine ⟨(mf.zip pf)[i], List.getElem_mem hz, ?_⟩
      rw [List.getElem_zip]
      exact hget
    rw [select_best, buildScores_keyError (mf.zip pf) [] hpair]
  · rintro ⟨hmf, hpf⟩
    subst hmf
    subst hpf
    rfl

/-- Witness for C8: a single pair with a missing score column yields the
key error; empty lists yield the index error. -/
theorem select_best_failure_cases_witness :
    ((none ∈ ([none] : List (Option (List ℚ)))) ∧
      select_best [none] ["p"] = Except.error SelErr.keyError) ∧
    select_best ([] : List (Option (List ℚ))) ([] : List String) =
      Except.error SelErr.indexError :=
  ⟨⟨by decide,
    (select_best_failure_cases [none] ["p"] rfl).1 (by decide)⟩,
   (select_best_failure_cases [] [] rfl).2 ⟨rfl, rfl⟩⟩

end Correct
